import Mathlib

/-!
Shallow embedding of the ML-RAG-101 pipeline (src/ingester.py, src/searcher.py,
src/rag_llm.py, src/server.py) and proofs of the specification claims.

External collaborators (HTTP fetch, HTML parse, vector index similarity query,
hosted LLM completion) are modelled as environment records of fallible
functions; Python exceptions are modelled as the `Except String` error case,
and the vector index contents as a list of records to which a batch add
appends.
-/

namespace RagSpec

/-- Feed entry parsed from the RSS document: title, description, link, publish
date (`item.pubDate.text if item.pubDate else ""` guards only the date, so a
well-formed item carries the other three fields). -/
structure FeedItem where
  title : String
  description : String
  link : String
  pubDate : Option String
deriving DecidableEq

/-- Result of fetching and HTML-parsing one linked article:
the full plain text (`art_soup.get_text(separator=' ', strip=True)`, before
truncation) and the `alt` attribute of each `img` tag in document order
(`none` when the attribute is absent, defaulted by `img.get('alt', '')`). -/
structure ArticlePage where
  fullText : String
  imgAlts : List (Option String)
deriving DecidableEq

/-- Metadata stored with each indexed record (ingester.py line 86). -/
structure Meta where
  title : String
  url : String
  date : String
  images : List String
deriving DecidableEq

/-- One record of the vector index: id, document text, metadata, as passed to
`collection.add(documents=docs, metadatas=metas, ids=ids)`. -/
structure Record where
  id : String
  doc : String
  meta : Meta
deriving DecidableEq

/-- External collaborators of the ingester: `requests.get` + BeautifulSoup on
the feed URL (yielding the parsed `item` elements) and on an article link
(yielding its text and images). An exception is the `.error` case. -/
structure IngestEnv where
  fetchFeed : String → Except String (List FeedItem)
  fetchArticle : String → Except String ArticlePage

/-- Record id `f"doc_{i}"` (ingester.py line 90). -/
def docId (i : Nat) : String := "doc_" ++ Nat.repr i

/-- Record built for entry `item` at sequence index `i` from its fetched
article page (ingester.py lines 79-90): body text truncated to 2000
characters, at most three image alt strings with missing alts defaulted to
`""`, document `f"{title}\n{desc}\n{full_text}"`, metadata title/url/date/
images. -/
def mkRecord (i : Nat) (item : FeedItem) (art : ArticlePage) : Record :=
  { id := docId i
    doc := item.title ++ "\n" ++ item.description ++ "\n" ++ art.fullText.take 2000
    meta :=
      { title := item.title
        url := item.link
        date := item.pubDate.getD ""
        images := (art.imgAlts.take 3).map (fun a => a.getD "") } }

/-- Body of one iteration of the ingest loop (ingester.py lines 76-91):
fetch the linked article; an exception aborts with `.error`. -/
def processEntry (env : IngestEnv) (i : Nat) (item : FeedItem) :
    Except String Record :=
  match env.fetchArticle item.link with
  | .error e => .error e
  | .ok art => .ok (mkRecord i item art)

/-- The ingest loop `for i, item in enumerate(items[:1000])` run from sequence
index `i`: the first exception aborts the whole feed (no partial batch). -/
def processEntries (env : IngestEnv) : Nat → List FeedItem → Except String (List Record)
  | _, [] => .ok []
  | i, item :: rest =>
    match processEntry env i item with
    | .error e => .error e
    | .ok r =>
      match processEntries env (i + 1) rest with
      | .error e => .error e
      | .ok rs => .ok (r :: rs)

/-- The entry cap of the ingest loop, `items[:1000]` (ingester.py line 70). -/
def entryCap : Nat := 1000

/-- Embedding of `ingest_news_feed` (ingester.py lines 62-97): fetch and parse the feed,
process the first 1000 items, and on success append all records to the index
in one batch `collection.add` call after the loop. -/
def ingest_news_feed (env : IngestEnv) (url : String) (index : List Record) :
    Except String (List Record) :=
  match env.fetchFeed url with
  | .error e => .error e
  | .ok items =>
    match processEntries env 0 (items.take entryCap) with
    | .error e => .error e
    | .ok records => .ok (index ++ records)

/-- Embedding of `ingest_all_sources` (ingester.py lines 44-55) after the URL list has been
read from feedsources.md: each URL is ingested in order inside
`try/except Exception`, so a failing feed is skipped (its exception is logged)
and the remaining feeds still proceed; the function itself always returns. -/
def ingest_all_sources (env : IngestEnv) (urls : List String) (index : List Record) :
    List Record :=
  match urls with
  | [] => index
  | url :: rest =>
    match ingest_news_feed env url index with
    | .ok index2 => ingest_all_sources env rest index2
    | .error _ => ingest_all_sources env rest index

/-- Shape of the chroma `collection.query(query_texts=[q], n_results=k)`
result as searcher.py uses it: one inner list of documents and one inner list
of metadata dictionaries per query text. -/
structure QueryResult where
  documents : List (List String)
  metadatas : List (List Meta)
deriving DecidableEq

/-- External collaborator of the searcher: the vector index similarity
query. An exception is the `.error` case. -/
structure SearchEnv where
  rawQuery : String → Nat → Except String QueryResult

/-- Embedding of `search_topic` (searcher.py lines 14-24): query the index, then read
`results['documents'][0]` (for the result-count log line and the hit loop),
`results['metadatas'][0][i]` for each hit `i`, and return
`results['documents'][0], results['metadatas'][0]` unchanged. The reads raise
`IndexError` when the outer lists are empty or the metadata row is shorter
than the document row. -/
def search_topic (se : SearchEnv) (query : String) (n_results : Nat) :
    Except String (List String × List Meta) :=
  match se.rawQuery query n_results with
  | .error e => .error e
  | .ok results =>
    match results.documents, results.metadatas with
    | [], _ => .error "IndexError: list index out of range"
    | _ :: _, [] => .error "IndexError: list index out of range"
    | d0 :: _, m0 :: _ =>
      if d0.length ≤ m0.length then .ok (d0, m0)
      else .error "IndexError: list index out of range"

/-- One chat message passed to `litellm.completion`. -/
structure Message where
  role : String
  content : String
deriving DecidableEq

/-- External collaborator of rag_llm.py: the hosted text-generation call.
`complete model messages` is `litellm.completion(model=model,
messages=messages).choices[0].message.content`; an exception is the `.error`
case. -/
structure LlmEnv where
  complete : String → List Message → Except String String

/-- One `litellm.completion` call as issued: the model name and the
messages. -/
def LlmCall : Type := String × List Message

/-- Prompt of the query-refinement call (rag_llm.py line 13). -/
def refinePrompt (user_query : String) : String :=
  "Refine this into a precise search query for current affairs: " ++ user_query

/-- Embedding of `generate_query_llm` (rag_llm.py lines 11-17): one completion call on the
refine prompt, result stripped. -/
def generate_query_llm (llm : LlmEnv) (user_query : String) (model : String) :
    Except String String :=
  match llm.complete model [⟨"user", refinePrompt user_query⟩] with
  | .error e => .error e
  | .ok content => .ok content.trim

/-- One context line per retrieved hit, `f"{meta['title']}: {doc[:500]}..."`
(rag_llm.py line 28). -/
def contextEntry (doc : String) (meta : Meta) : String :=
  meta.title ++ ": " ++ doc.take 500 ++ "..."

/-- The retrieval context string (rag_llm.py line 28):
`"\n\n".join(f"{meta['title']}: {doc[:500]}..." for doc, meta in zip(docs, metas))`. -/
def contextOf (docs : List String) (metas : List Meta) : String :=
  String.intercalate "\n\n" ((docs.zip metas).map (fun p => contextEntry p.1 p.2))

/-- The final-answer prompt (rag_llm.py lines 31-34). -/
def ragPrompt (context user_query : String) : String :=
  "Using this current affairs context:\n" ++ context ++ "\n\nAnswer: " ++ user_query

/-- The system message of the final-answer call (rag_llm.py line 38). -/
def systemMsg : Message := ⟨"system", "You are a news analyst."⟩

/-- Embedding of `rag_query` (rag_llm.py lines 19-42), instrumented with the list of
`litellm.completion` calls issued before it returns or raises: refine the
question through `generate_query_llm`, retrieve with the refined query
(`search_topic`, default `n_results=3`), build the context, and generate the
final answer from the rag prompt; the answer is stripped. The first exception
propagates. -/
def rag_query (llm : LlmEnv) (se : SearchEnv) (user_query : String) (model : String) :
    Except String String × List LlmCall :=
  let call1 : LlmCall := (model, [⟨"user", refinePrompt user_query⟩])
  match generate_query_llm llm user_query model with
  | .error e => (.error e, [call1])
  | .ok refined_query =>
    match search_topic se refined_query 3 with
    | .error e => (.error e, [call1])
    | .ok (docs, metas) =>
      let rag_prompt := ragPrompt (contextOf docs metas) user_query
      let call2 : LlmCall := (model, [systemMsg, ⟨"user", rag_prompt⟩])
      match llm.complete model [systemMsg, ⟨"user", rag_prompt⟩] with
      | .error e => (.error e, [call1, call2])
      | .ok raw => (.ok raw.trim, [call1, call2])

/-- HTTP reply of an endpoint: a 200 body, or an `HTTPException(status_code,
detail)`. -/
inductive HttpReply where
  | ok (body : String)
  | err (code : Nat) (detail : String)
deriving DecidableEq

/-- Embedding of `post_query` (server.py lines 67-75): run `rag_query`; any exception is
caught and re-raised as `HTTPException(500, str(e))`. -/
def post_query (llm : LlmEnv) (se : SearchEnv) (query model : String) : HttpReply :=
  match (rag_query llm se query model).1 with
  | .ok answer => .ok answer
  | .error e => .err 500 e

/-- Default feed URL of the ingest endpoint (server.py line 81). -/
def defaultFeedUrl : String := "http://feeds.bbci.co.uk/news/rss.xml"

/-- Embedding of `post_ingest` (server.py lines 78-87): pick the body URL or the default,
run `ingest_news_feed` against the current index; on success reply with the
ingested-feed message, on exception leave the index as it was and reply
`HTTPException(500, str(e))`. -/
def post_ingest (env : IngestEnv) (body : Option String) (index : List Record) :
    List Record × HttpReply :=
  let url := match body with | some u => u | none => defaultFeedUrl
  match ingest_news_feed env url index with
  | .ok index2 => (index2, .ok ("Ingested feed: " ++ url))
  | .error e => (index, .err 500 e)

/-! Decimal representation: `Nat.repr` is injective, so the ids
`doc_0, doc_1, ...` of one ingestion batch are pairwise distinct. -/

/-- Decimal digit characters of `n`, most significant first. -/
def decDigits (n : Nat) : List Char :=
  if _h : n < 10 then [Nat.digitChar n]
  else decDigits (n / 10) ++ [Nat.digitChar (n % 10)]
decreasing_by exact Nat.div_lt_self (by omega) (by omega)

/-- Numeric value of a decimal digit character. -/
def digitVal (c : Char) : Nat := c.toNat - 48

/-- List of digit characters read back as a number. -/
def digitsVal (ds : List Char) : Nat :=
  ds.foldl (fun acc c => 10 * acc + digitVal c) 0

theorem digitVal_digitChar {r : Nat} (h : r < 10) :
    digitVal (Nat.digitChar r) = r := by
  interval_cases r <;> rfl

theorem digitsVal_append (xs : List Char) (c : Char) :
    digitsVal (xs ++ [c]) = 10 * digitsVal xs + digitVal c := by
  simp [digitsVal, List.foldl_append]

theorem digitsVal_decDigits (n : Nat) : digitsVal (decDigits n) = n := by
  induction n using Nat.strong_induction_on with
  | _ n ih =>
    rw [decDigits]
    split
    · next h =>
      simpa [digitsVal] using digitVal_digitChar h
    · next h =>
      rw [digitsVal_append]
      rw [ih (n / 10) (Nat.div_lt_self (by omega) (by omega))]
      rw [digitVal_digitChar (Nat.mod_lt _ (by omega))]
      omega

theorem toDigitsCore_eq (fuel : Nat) :
    ∀ (n : Nat) (ds : List Char), n < fuel →
      Nat.toDigitsCore 10 fuel n ds = decDigits n ++ ds := by
  induction fuel with
  | zero => intro n ds h; omega
  | succ fuel ih =>
    intro n ds h
    simp only [Nat.toDigitsCore]
    by_cases h10 : n / 10 = 0
    · have hn : n < 10 := by omega
      rw [if_pos h10, decDigits]
      simp [hn, Nat.mod_eq_of_lt hn]
    · have hn : ¬ n < 10 := by omega
      rw [if_neg h10]
      rw [ih (n / 10) _ (by omega)]
      conv_rhs => rw [decDigits]
      simp [hn]

theorem repr_eq_decDigits (n : Nat) : Nat.repr n = (decDigits n).asString := by
  unfold Nat.repr Nat.toDigits
  rw [toDigitsCore_eq (n + 1) n [] (by omega)]
  simp

theorem nat_repr_inj {a b : Nat} (h : Nat.repr a = Nat.repr b) : a = b := by
  rw [repr_eq_decDigits, repr_eq_decDigits] at h
  have hd : decDigits a = decDigits b := by
    simpa [List.asString] using congrArg String.data h
  have ha := digitsVal_decDigits a
  rw [hd, digitsVal_decDigits] at ha
  exact ha.symm

theorem docId_inj {a b : Nat} (h : docId a = docId b) : a = b := by
  unfold docId at h
  have h2 := congrArg String.data h
  simp only [String.data_append] at h2
  have h3 : (Nat.repr a).data = (Nat.repr b).data := List.append_cancel_left h2
  exact nat_repr_inj (String.ext h3)

theorem docId_injective : Function.Injective docId :=
  fun _ _ h => docId_inj h

/-! Helper lemmas about the ingest loop. -/

theorem processEntry_ok (env : IngestEnv) (i : Nat) (item : FeedItem)
    (r : Record) (h : processEntry env i item = .ok r) :
    ∃ art, env.fetchArticle item.link = .ok art ∧ r = mkRecord i item art := by
  simp only [processEntry] at h
  cases hart : env.fetchArticle item.link with
  | error e => rw [hart] at h; simp at h
  | ok art =>
    rw [hart] at h
    simp only [Except.ok.injEq] at h
    exact ⟨art, rfl, h.symm⟩

theorem processEntries_ok_length (env : IngestEnv) :
    ∀ (items : List FeedItem) (i : Nat) (rs : List Record),
      processEntries env i items = .ok rs → rs.length = items.length := by
  intro items
  induction items with
  | nil =>
    intro i rs h
    simp only [processEntries, Except.ok.injEq] at h
    simp [← h]
  | cons item rest ih =>
    intro i rs h
    simp only [processEntries] at h
    cases hpe : processEntry env i item with
    | error e => rw [hpe] at h; simp at h
    | ok r =>
      rw [hpe] at h
      cases hrest : processEntries env (i + 1) rest with
      | error e => rw [hrest] at h; simp at h
      | ok rs2 =>
        rw [hrest] at h
        simp only [Except.ok.injEq] at h
        subst h
        simp [ih (i + 1) rs2 hrest]

theorem processEntries_ok_get (env : IngestEnv) :
    ∀ (items : List FeedItem) (i : Nat) (rs : List Record),
      processEntries env i items = .ok rs →
      ∀ (k : Nat) (hk : k < rs.length) (hk2 : k < items.length),
        ∃ art, env.fetchArticle (items.get ⟨k, hk2⟩).link = .ok art ∧
          rs.get ⟨k, hk⟩ = mkRecord (i + k) (items.get ⟨k, hk2⟩) art := by
  intro items
  induction items with
  | nil => intro i rs h k hk hk2; simp at hk2
  | cons item rest ih =>
    intro i rs h k hk hk2
    simp only [processEntries] at h
    cases hpe : processEntry env i item with
    | error e => rw [hpe] at h; simp at h
    | ok r =>
      rw [hpe] at h
      cases hrest : processEntries env (i + 1) rest with
      | error e => rw [hrest] at h; simp at h
      | ok rs2 =>
        rw [hrest] at h
        simp only [Except.ok.injEq] at h
        subst h
        cases k with
        | zero =>
          obtain ⟨art, hart, hr⟩ := processEntry_ok env i item r hpe
          exact ⟨art, by simpa using hart, by simpa using hr⟩
        | succ k2 =>
          obtain ⟨art, hart, hg⟩ :=
            ih (i + 1) rs2 hrest k2 (by simpa using hk) (by simpa using hk2)
          refine ⟨art, by simpa using hart, ?_⟩
          have harith : i + 1 + k2 = i + (k2 + 1) := by omega
          simpa [harith] using hg

theorem processEntries_ok_ids (env : IngestEnv) :
    ∀ (items : List FeedItem) (i : Nat) (rs : List Record),
      processEntries env i items = .ok rs →
      rs.map Record.id = (List.range' i items.length).map docId := by
  intro items
  induction items with
  | nil =>
    intro i rs h
    simp only [processEntries, Except.ok.injEq] at h
    simp [← h]
  | cons item rest ih =>
    intro i rs h
    simp only [processEntries] at h
    cases hpe : processEntry env i item with
    | error e => rw [hpe] at h; simp at h
    | ok r =>
      rw [hpe] at h
      cases hrest : processEntries env (i + 1) rest with
      | error e => rw [hrest] at h; simp at h
      | ok rs2 =>
        rw [hrest] at h
        simp only [Except.ok.injEq] at h
        subst h
        obtain ⟨art, _, hr⟩ := processEntry_ok env i item r hpe
        simp [List.range', hr, mkRecord, ih (i + 1) rs2 hrest]

theorem processEntries_ok_mem (env : IngestEnv) :
    ∀ (items : List FeedItem) (i : Nat) (rs : List Record),
      processEntries env i items = .ok rs →
      ∀ r ∈ rs, ∃ item, item ∈ items ∧ ∃ j art,
        env.fetchArticle item.link = .ok art ∧ r = mkRecord j item art := by
  intro items
  induction items with
  | nil =>
    intro i rs h r hr
    simp only [processEntries, Except.ok.injEq] at h
    subst h
    simp at hr
  | cons item rest ih =>
    intro i rs h r hr
    simp only [processEntries] at h
    cases hpe : processEntry env i item with
    | error e => rw [hpe] at h; simp at h
    | ok r0 =>
      rw [hpe] at h
      cases hrest : processEntries env (i + 1) rest with
      | error e => rw [hrest] at h; simp at h
      | ok rs2 =>
        rw [hrest] at h
        simp only [Except.ok.injEq] at h
        subst h
        rcases List.mem_cons.mp hr with hr0 | hr2
        · obtain ⟨art, hart, hrr⟩ := processEntry_ok env i item r0 hpe
          exact ⟨item, List.mem_cons_self _ _, i, art, hart, hr0 ▸ hrr⟩
        · obtain ⟨item2, hm, j, art, hart, hrr⟩ := ih (i + 1) rs2 hrest r hr2
          exact ⟨item2, List.mem_cons_of_mem _ hm, j, art, hart, hrr⟩

theorem processEntries_ok_of_fetch_ok (env : IngestEnv) :
    ∀ (items : List FeedItem) (i : Nat),
      (∀ item ∈ items, ∃ art, env.fetchArticle item.link = .ok art) →
      ∃ rs, processEntries env i items = .ok rs := by
  intro items
  induction items with
  | nil => intro i _; exact ⟨[], rfl⟩
  | cons item rest ih =>
    intro i hall
    obtain ⟨art, hart⟩ := hall item (List.mem_cons_self _ _)
    obtain ⟨rs2, hrs2⟩ := ih (i + 1) (fun it hit => hall it (List.mem_cons_of_mem _ hit))
    refine ⟨mkRecord i item art :: rs2, ?_⟩
    simp [processEntries, processEntry, hart, hrs2]

theorem processEntries_error_of_mem (env : IngestEnv) :
    ∀ (items : List FeedItem) (i : Nat),
      (∃ item ∈ items, ∃ e, env.fetchArticle item.link = .error e) →
      ∃ e2, processEntries env i items = .error e2 := by
  intro items
  induction items with
  | nil => intro i h; simp at h
  | cons item rest ih =>
    intro i h
    cases hpe : processEntry env i item with
    | error e => exact ⟨e, by simp [processEntries, hpe]⟩
    | ok r =>
      obtain ⟨item2, hm, e, he⟩ := h
      rcases List.mem_cons.mp hm with h0 | h2
      · rw [h0] at he
        obtain ⟨art, hart, _⟩ := processEntry_ok env i item r hpe
        rw [hart] at he
        simp at he
      · obtain ⟨e2, he2⟩ := ih (i + 1) ⟨item2, h2, e, he⟩
        exact ⟨e2, by simp [processEntries, hpe, he2]⟩

theorem processEntries_replicate (env : IngestEnv) (a : ArticlePage)
    (hart : ∀ l, env.fetchArticle l = .ok a) (item : FeedItem) :
    ∀ (m i : Nat),
      processEntries env i (List.replicate m item) =
        .ok ((List.range' i m).map (fun j => mkRecord j item a)) := by
  intro m
  induction m with
  | zero => intro i; simp [processEntries, List.range']
  | succ m2 ih =>
    intro i
    simp [List.replicate_succ, processEntries, processEntry, hart, ih (i + 1),
      List.range']

/-! Decomposition of a successful feed ingestion. -/

theorem ingest_news_feed_ok (env : IngestEnv) (url : String)
    (index out : List Record) (h : ingest_news_feed env url index = .ok out) :
    ∃ items records, env.fetchFeed url = .ok items ∧
      processEntries env 0 (items.take entryCap) = .ok records ∧
      out = index ++ records := by
  cases hf : env.fetchFeed url with
  | error e => simp [ingest_news_feed, hf] at h
  | ok items =>
    cases hp : processEntries env 0 (items.take entryCap) with
    | error e => simp [ingest_news_feed, hf, hp] at h
    | ok records =>
      simp only [ingest_news_feed, hf, hp, Except.ok.injEq] at h
      exact ⟨items, records, rfl, hp, h.symm⟩

/-! Concrete fixtures used by the witness theorems. -/

def wItem : FeedItem := ⟨"Title A", "Desc A", "http://a/1", some "Mon"⟩

def wArt : ArticlePage := ⟨"Body text", [some "alt1", none, some "alt3", some "alt4"]⟩

def wEnv : IngestEnv := ⟨fun _ => .ok [wItem], fun _ => .ok wArt⟩

def wFailEnv : IngestEnv := ⟨fun _ => .error "boom", fun _ => .ok wArt⟩

def wMeta : Meta := ⟨"T1", "http://a", "2024", []⟩

def wSe : SearchEnv := ⟨fun _ _ => .ok ⟨[["alpha"]], [[wMeta]]⟩⟩

def emptySe : SearchEnv := ⟨fun _ _ => .ok ⟨[[]], [[]]⟩⟩

def badLlm : LlmEnv := ⟨fun _ _ => .error "boom"⟩

def okLlm : LlmEnv := ⟨fun _ _ => .ok " refined "⟩

/-! Claim theorems. -/

/-- C4: for every query string and result count, search_topic returns exactly
the document list and metadata list produced by the vector index's similarity
query (one row per query text, rows of equal length), in the index's order,
with no element re-ranked, filtered, removed, or deduplicated. -/
theorem search_topic_passthrough (se : SearchEnv) (q : String) (n : Nat)
    (res : QueryResult) (d0 : List String) (ds : List (List String))
    (m0 : List Meta) (ms : List (List Meta))
    (hq : se.rawQuery q n = .ok res)
    (hd : res.documents = d0 :: ds) (hm : res.metadatas = m0 :: ms)
    (hlen : d0.length = m0.length) :
    search_topic se q n = .ok (d0, m0) := by
  simp [search_topic, hq, hd, hm, hlen]

theorem search_topic_passthrough_witness :
    wSe.rawQuery "q" 3 = .ok ⟨[["alpha"]], [[wMeta]]⟩ ∧
    search_topic wSe "q" 3 = .ok (["alpha"], [wMeta]) :=
  ⟨rfl, search_topic_passthrough wSe "q" 3 ⟨[["alpha"]], [[wMeta]]⟩
    ["alpha"] [] [wMeta] [] rfl rfl rfl rfl⟩

/-- C8: ingest_all_sources attempts ingestion of each URL in order; a feed
whose ingestion raises is skipped (the index is left as it was before that
feed) and every remaining feed still proceeds; the function itself is total,
so it never raises because of a failing feed. -/
theorem ingest_all_sources_skips_failures :
    (∀ (env : IngestEnv) (index : List Record),
        ingest_all_sources env [] index = index) ∧
    (∀ (env : IngestEnv) (url : String) (rest : List String)
        (index : List Record) (e : String),
        ingest_news_feed env url index = .error e →
        ingest_all_sources env (url :: rest) index =
          ingest_all_sources env rest index) ∧
    (∀ (env : IngestEnv) (url : String) (rest : List String)
        (index index2 : List Record),
        ingest_news_feed env url index = .ok index2 →
        ingest_all_sources env (url :: rest) index =
          ingest_all_sources env rest index2) := by
  refine ⟨fun env index => rfl, ?_, ?_⟩
  · intro env url rest index e h
    simp [ingest_all_sources, h]
  · intro env url rest index index2 h
    simp [ingest_all_sources, h]

theorem ingest_all_sources_skips_failures_witness :
    ingest_news_feed wFailEnv "u" [] = .error "boom" ∧
    ingest_all_sources wFailEnv ["u", "v"] [] =
      ingest_all_sources wFailEnv ["v"] [] :=
  ⟨rfl, ingest_all_sources_skips_failures.2.1 wFailEnv "u" ["v"] [] "boom" rfl⟩

/-- C2: if fetching the feed, or fetching any single article among the
processed entries, raises, then ingest_news_feed aborts with that exception
before the batch add, so the call writes no records; at the HTTP layer,
post_ingest then returns status 500 with the exception text and the vector
index is unchanged. -/
theorem ingest_failure_atomic (env : IngestEnv) (url : String)
    (index : List Record)
    (h : (∃ e, env.fetchFeed url = .error e) ∨
      (∃ items, env.fetchFeed url = .ok items ∧
        ∃ item ∈ items.take entryCap, ∃ e,
          env.fetchArticle item.link = .error e)) :
    ∃ e2, ingest_news_feed env url index = .error e2 ∧
      post_ingest env (some url) index = (index, .err 500 e2) := by
  rcases h with ⟨e, he⟩ | ⟨items, hitems, hmem⟩
  · exact ⟨e, by simp [ingest_news_feed, he],
      by simp [post_ingest, ingest_news_feed, he]⟩
  · obtain ⟨e2, he2⟩ := processEntries_error_of_mem env (items.take entryCap) 0 hmem
    exact ⟨e2, by simp [ingest_news_feed, hitems, he2],
      by simp [post_ingest, ingest_news_feed, hitems, he2]⟩

theorem ingest_failure_atomic_witness :
    ∃ e2, ingest_news_feed wFailEnv "http://bad" [] = .error e2 ∧
      post_ingest wFailEnv (some "http://bad") [] = ([], .err 500 e2) :=
  ingest_failure_atomic wFailEnv "http://bad" [] (Or.inl ⟨"boom", rfl⟩)

/-- C7: any exception raised in the rag_query pipeline (query refinement,
retrieval, or answer generation) is caught by the /query endpoint and
surfaced as an HTTP 500 whose detail is the exception's text; no retry is
attempted (on every run the pipeline issues at most two completion calls and
never repeats a call). -/
theorem post_query_error_propagation (llm : LlmEnv) (se : SearchEnv)
    (query model : String) :
    (∀ e, (rag_query llm se query model).1 = .error e →
        post_query llm se query model = .err 500 e) ∧
    (rag_query llm se query model).2.length ≤ 2 ∧
    (rag_query llm se query model).2.Nodup := by
  have hshape : (rag_query llm se query model).2 =
        [(model, [⟨"user", refinePrompt query⟩])] ∨
      ∃ p, (rag_query llm se query model).2 =
        [(model, [⟨"user", refinePrompt query⟩]),
         (model, [systemMsg, ⟨"user", p⟩])] := by
    rcases hg : generate_query_llm llm query model with e | refined
    · left; simp [rag_query, hg]
    · rcases hs : search_topic se refined 3 with e | dm
      · left; simp [rag_query, hg, hs]
      · rcases dm with ⟨docs, metas⟩
        rcases hc : llm.complete model
            [systemMsg, ⟨"user", ragPrompt (contextOf docs metas) query⟩]
          with e | raw
        · exact Or.inr ⟨ragPrompt (contextOf docs metas) query,
            by simp [rag_query, hg, hs, hc]⟩
        · exact Or.inr ⟨ragPrompt (contextOf docs metas) query,
            by simp [rag_query, hg, hs, hc]⟩
  refine ⟨?_, ?_, ?_⟩
  · intro e he
    simp [post_query, he]
  · rcases hshape with h1 | ⟨p, h2⟩
    · simp [h1]
    · simp [h2]
  · rcases hshape with h1 | ⟨p, h2⟩
    · simp [h1]
    · rw [h2]
      refine List.nodup_cons.mpr ⟨?_, List.nodup_singleton _⟩
      intro hmem
      have heq := List.mem_singleton.mp hmem
      have hlen := congrArg (fun x => x.2.length) heq
      simp at hlen

theorem post_query_error_propagation_witness :
    post_query badLlm wSe "q" "m" = .err 500 "boom" ∧
    (rag_query badLlm wSe "q" "m").2.length ≤ 2 ∧
    (rag_query badLlm wSe "q" "m").2.Nodup :=
  ⟨(post_query_error_propagation badLlm wSe "q" "m").1 "boom" rfl,
   (post_query_error_propagation badLlm wSe "q" "m").2.1,
   (post_query_error_propagation badLlm wSe "q" "m").2.2⟩

theorem string_take_length_le (s : String) (n : Nat) : (s.take n).length ≤ n := by
  rw [String.take_eq]
  show (s.data.take n).length ≤ n
  rw [List.length_take]
  exact Nat.min_le_left _ _

theorem string_take_take (s : String) (n : Nat) : (s.take n).take n = s.take n := by
  rw [String.take_eq s n, String.take_eq]
  show String.mk ((s.data.take n).take n) = String.mk (s.data.take n)
  rw [List.take_take, Nat.min_self]

/-- C5: for every user query, rag_query makes exactly two completion calls:
the first carries the refine prompt on the user's question (and is exactly
the generate_query_llm step, whose stripped output is the refined query), the
retrieval step runs on that refined query (not the original question), and
the second call generates the final answer from the prompt holding the
concatenated retrieved snippets plus the original question. -/
theorem rag_query_two_calls (llm : LlmEnv) (se : SearchEnv)
    (q m raw : String) (docs : List String) (metas : List Meta) (raw2 : String)
    (h1 : llm.complete m [⟨"user", refinePrompt q⟩] = .ok raw)
    (h2 : search_topic se raw.trim 3 = .ok (docs, metas))
    (h3 : llm.complete m
      [systemMsg, ⟨"user", ragPrompt (contextOf docs metas) q⟩] = .ok raw2) :
    generate_query_llm llm q m = .ok raw.trim ∧
    rag_query llm se q m =
      (.ok raw2.trim,
       [(m, [⟨"user", refinePrompt q⟩]),
        (m, [systemMsg, ⟨"user", ragPrompt (contextOf docs metas) q⟩])]) ∧
    (rag_query llm se q m).2.length = 2 := by
  have hg : generate_query_llm llm q m = .ok raw.trim := by
    simp [generate_query_llm, h1]
  have hr : rag_query llm se q m =
      (.ok raw2.trim,
       [(m, [⟨"user", refinePrompt q⟩]),
        (m, [systemMsg, ⟨"user", ragPrompt (contextOf docs metas) q⟩])]) := by
    simp [rag_query, hg, h2, h3]
  exact ⟨hg, hr, by simp [hr]⟩

theorem rag_query_two_calls_witness :
    generate_query_llm okLlm "q" "m" = .ok " refined ".trim ∧
    rag_query okLlm wSe "q" "m" =
      (.ok " refined ".trim,
       [("m", [⟨"user", refinePrompt "q"⟩]),
        ("m", [systemMsg, ⟨"user", ragPrompt (contextOf ["alpha"] [wMeta]) "q"⟩])]) ∧
    (rag_query okLlm wSe "q" "m").2.length = 2 :=
  rag_query_two_calls okLlm wSe "q" "m" " refined " ["alpha"] [wMeta]
    " refined " rfl rfl rfl

/-- C6: when the vector index contains no records (every similarity query
returns one empty document row and one empty metadata row), the /query
pipeline completes without raising: retrieval yields empty document and
metadata lists, the context string is empty, and post_query returns the
answer generated from the empty-context prompt. -/
theorem empty_index_query (llm : LlmEnv) (se : SearchEnv) (q m raw raw2 : String)
    (hempty : ∀ q2 n, se.rawQuery q2 n = .ok ⟨[[]], [[]]⟩)
    (h1 : llm.complete m [⟨"user", refinePrompt q⟩] = .ok raw)
    (h3 : llm.complete m [systemMsg, ⟨"user", ragPrompt "" q⟩] = .ok raw2) :
    search_topic se raw.trim 3 = .ok ([], []) ∧
    contextOf [] [] = "" ∧
    rag_query llm se q m =
      (.ok raw2.trim,
       [(m, [⟨"user", refinePrompt q⟩]),
        (m, [systemMsg, ⟨"user", ragPrompt "" q⟩])]) ∧
    post_query llm se q m = .ok raw2.trim := by
  have hs : search_topic se raw.trim 3 = .ok ([], []) := by
    simp [search_topic, hempty]
  have hctx : contextOf ([] : List String) ([] : List Meta) = "" := rfl
  have hg : generate_query_llm llm q m = .ok raw.trim := by
    simp [generate_query_llm, h1]
  have hr : rag_query llm se q m =
      (.ok raw2.trim,
       [(m, [⟨"user", refinePrompt q⟩]),
        (m, [systemMsg, ⟨"user", ragPrompt "" q⟩])]) := by
    simp [rag_query, hg, hs, hctx, h3]
  exact ⟨hs, hctx, hr, by simp [post_query, hr]⟩

theorem empty_index_query_witness :
    search_topic emptySe " refined ".trim 3 = .ok ([], []) ∧
    contextOf [] [] = "" ∧
    rag_query okLlm emptySe "q" "m" =
      (.ok " refined ".trim,
       [("m", [⟨"user", refinePrompt "q"⟩]),
        ("m", [systemMsg, ⟨"user", ragPrompt "" "q"⟩])]) ∧
    post_query okLlm emptySe "q" "m" = .ok " refined ".trim :=
  empty_index_query okLlm emptySe "q" "m" " refined " " refined "
    (fun _ _ => rfl) rfl rfl

/-- C10: each retrieved document contributes at most its first 500 characters
to the context passed to the answer-generation call: the context is the
double-newline join over zipped (document, metadata) pairs of the entry
`title: doc[:500]...`; the entry's excerpt has length at most 500 and the
entry is unchanged when the document is replaced by its first 500 characters
(the remainder never reaches the model), and whenever rag_query issues a
second completion call its user prompt is built from exactly this context. -/
theorem rag_context_truncation :
    (∀ (docs : List String) (metas : List Meta),
      contextOf docs metas =
        String.intercalate "\n\n" ((docs.zip metas).map
          (fun p => p.2.title ++ ": " ++ p.1.take 500 ++ "..."))) ∧
    (∀ (doc : String) (meta : Meta),
      contextEntry doc meta = meta.title ++ ": " ++ doc.take 500 ++ "..." ∧
      (doc.take 500).length ≤ 500 ∧
      contextEntry doc meta = contextEntry (doc.take 500) meta) ∧
    (∀ (llm : LlmEnv) (se : SearchEnv) (q m : String) (c2 : LlmCall),
      (rag_query llm se q m).2[1]? = some c2 →
      ∃ refined docs metas,
        generate_query_llm llm q m = .ok refined ∧
        search_topic se refined 3 = .ok (docs, metas) ∧
        c2 = (m, [systemMsg, ⟨"user", ragPrompt (contextOf docs metas) q⟩])) := by
  refine ⟨fun docs metas => rfl, ?_, ?_⟩
  · intro doc meta
    refine ⟨rfl, string_take_length_le doc 500, ?_⟩
    simp [contextEntry, string_take_take]
  · intro llm se q m c2 hc2
    rcases hg : generate_query_llm llm q m with e | refined
    · simp [rag_query, hg] at hc2
    · rcases hs : search_topic se refined 3 with e | dm
      · simp [rag_query, hg, hs] at hc2
      · rcases dm with ⟨docs, metas⟩
        rcases hc : llm.complete m
            [systemMsg, ⟨"user", ragPrompt (contextOf docs metas) q⟩]
          with e | raw
        · refine ⟨refined, docs, metas, rfl, hs, ?_⟩
          simp [rag_query, hg, hs, hc] at hc2
          exact hc2.symm
        · refine ⟨refined, docs, metas, rfl, hs, ?_⟩
          simp [rag_query, hg, hs, hc] at hc2
          exact hc2.symm

theorem rag_context_truncation_witness :
    contextOf ["alpha"] [wMeta] =
      String.intercalate "\n\n" (((["alpha"] : List String).zip [wMeta]).map
        (fun p => p.2.title ++ ": " ++ p.1.take 500 ++ "...")) ∧
    contextEntry "alpha" wMeta = contextEntry ("alpha".take 500) wMeta ∧
    ∃ refined docs metas,
      generate_query_llm okLlm "q" "m" = .ok refined ∧
      search_topic emptySe refined 3 = .ok (docs, metas) ∧
      ("m", [systemMsg, ⟨"user", ragPrompt (contextOf docs metas) "q"⟩]) =
        (("m" : String), [systemMsg, ⟨"user", ragPrompt (contextOf docs metas) "q"⟩]) :=
  ⟨rag_context_truncation.1 ["alpha"] [wMeta],
   (rag_context_truncation.2.1 "alpha" wMeta).2.2,
   by
    obtain ⟨refined, docs, metas, hg, hs, hc⟩ :=
      rag_context_truncation.2.2 okLlm emptySe "q" "m"
        ("m", [systemMsg, ⟨"user", ragPrompt (contextOf [] []) "q"⟩]) rfl
    exact ⟨refined, docs, metas, hg, hs, rfl⟩⟩

/-- C3: for every entry processed by a successful ingest_news_feed call, the
record at sequence position k is built from the k-th of the first 1000 feed
items and its fetched article: the body text is truncated to at most 2000
characters, at most three image alt-text strings are collected, the stored
document is the concatenation of title, description and truncated body, and
all records are written in one batch append after the loop. -/
theorem ingest_entry_shape (env : IngestEnv) (url : String)
    (index out : List Record) (items : List FeedItem)
    (h : ingest_news_feed env url index = .ok out)
    (hf : env.fetchFeed url = .ok items) :
    ∃ records, out = index ++ records ∧
      records.length = (items.take entryCap).length ∧
      ∀ (k : Nat) (hk : k < records.length)
        (hk2 : k < (items.take entryCap).length),
        ∃ art,
          env.fetchArticle ((items.take entryCap).get ⟨k, hk2⟩).link = .ok art ∧
          records.get ⟨k, hk⟩ = mkRecord k ((items.take entryCap).get ⟨k, hk2⟩) art ∧
          (records.get ⟨k, hk⟩).doc =
            ((items.take entryCap).get ⟨k, hk2⟩).title ++ "\n" ++
            ((items.take entryCap).get ⟨k, hk2⟩).description ++ "\n" ++
            art.fullText.take 2000 ∧
          (art.fullText.take 2000).length ≤ 2000 ∧
          (records.get ⟨k, hk⟩).meta.images.length ≤ 3 := by
  obtain ⟨items2, records, hf2, hp, hout⟩ := ingest_news_feed_ok env url index out h
  rw [hf] at hf2
  injection hf2 with hi
  subst hi
  refine ⟨records, hout, processEntries_ok_length env _ 0 records hp, ?_⟩
  intro k hk hk2
  obtain ⟨art, hart, hget⟩ :=
    processEntries_ok_get env (items.take entryCap) 0 records hp k hk hk2
  rw [Nat.zero_add] at hget
  refine ⟨art, hart, hget, ?_, string_take_length_le _ 2000, ?_⟩
  · rw [hget]
    rfl
  · rw [hget]
    simp only [mkRecord, List.length_map, List.length_take]
    omega

theorem ingest_entry_shape_witness :
    ∃ records, [mkRecord 0 wItem wArt] = [] ++ records ∧
      records.length = (([wItem] : List FeedItem).take entryCap).length ∧
      ∀ (k : Nat) (hk : k < records.length)
        (hk2 : k < (([wItem] : List FeedItem).take entryCap).length),
        ∃ art,
          wEnv.fetchArticle ((([wItem] : List FeedItem).take entryCap).get
            ⟨k, hk2⟩).link = .ok art ∧
          records.get ⟨k, hk⟩ =
            mkRecord k ((([wItem] : List FeedItem).take entryCap).get ⟨k, hk2⟩) art ∧
          (records.get ⟨k, hk⟩).doc =
            ((([wItem] : List FeedItem).take entryCap).get ⟨k, hk2⟩).title ++ "\n" ++
            ((([wItem] : List FeedItem).take entryCap).get ⟨k, hk2⟩).description ++
            "\n" ++ art.fullText.take 2000 ∧
          (art.fullText.take 2000).length ≤ 2000 ∧
          (records.get ⟨k, hk⟩).meta.images.length ≤ 3 :=
  ingest_entry_shape wEnv "u" [] [mkRecord 0 wItem wArt] [wItem] rfl rfl

/-- C1 (amended): for every feed document containing N well-formed items with
a non-empty title, when N is at most the per-call entry cap of 1000, a
successful call to ingest_news_feed adds exactly N records to the vector
index, and every added record's metadata has a non-empty title field. -/
theorem ingest_adds_all (env : IngestEnv) (url : String)
    (index out : List Record) (items : List FeedItem) (N : Nat)
    (h : ingest_news_feed env url index = .ok out)
    (hf : env.fetchFeed url = .ok items)
    (hN : items.length = N) (hcap : N ≤ entryCap)
    (htitle : ∀ item ∈ items, item.title ≠ "") :
    out.length = index.length + N ∧
    ∀ r ∈ out.drop index.length, r.meta.title ≠ "" := by
  obtain ⟨items2, records, hf2, hp, hout⟩ := ingest_news_feed_ok env url index out h
  rw [hf] at hf2
  injection hf2 with hi
  subst hi
  have htake : items.take entryCap = items := List.take_of_length_le (by omega)
  rw [htake] at hp
  have hlen := processEntries_ok_length env items 0 records hp
  constructor
  · rw [hout]
    simp [hlen, hN]
  · intro r hr
    rw [hout, List.drop_left] at hr
    obtain ⟨item, hmem, j, art, hart, hrr⟩ :=
      processEntries_ok_mem env items 0 records hp r hr
    rw [hrr]
    simpa [mkRecord] using htitle item hmem

theorem ingest_adds_all_witness :
    ingest_news_feed wEnv "u" [] = .ok ([] ++ [mkRecord 0 wItem wArt]) ∧
    ([] ++ [mkRecord 0 wItem wArt] : List Record).length =
      ([] : List Record).length + 1 ∧
    ∀ r ∈ ([] ++ [mkRecord 0 wItem wArt] : List Record).drop
      ([] : List Record).length, r.meta.title ≠ "" :=
  ⟨rfl,
   (ingest_adds_all wEnv "u" [] ([] ++ [mkRecord 0 wItem wArt]) [wItem] 1 rfl rfl
      rfl (by norm_num [entryCap])
      (by intro item hmem; simp at hmem; simp [hmem, wItem])).1,
   (ingest_adds_all wEnv "u" [] ([] ++ [mkRecord 0 wItem wArt]) [wItem] 1 rfl rfl
      rfl (by norm_num [entryCap])
      (by intro item hmem; simp at hmem; simp [hmem, wItem])).2⟩

/-- Concrete feed with 1001 well-formed items, used to refute claim C1 as
stated: the ingest loop caps processing at the first 1000 entries. -/
def bigItem : FeedItem := ⟨"T", "D", "L", none⟩

def bigArt : ArticlePage := ⟨"", []⟩

def bigEnv : IngestEnv :=
  ⟨fun _ => .ok (List.replicate 1001 bigItem), fun _ => .ok bigArt⟩

set_option maxRecDepth 4000 in
/-- C1 is false as stated: a feed document with 1001 well-formed items (all
titles non-empty) is ingested successfully but only 1000 records are added to
the empty index, not 1001. -/
theorem ingest_adds_all_cex :
    bigEnv.fetchFeed "u" = .ok (List.replicate 1001 bigItem) ∧
    (List.replicate 1001 bigItem).length = 1001 ∧
    bigItem.title = "T" ∧
    ingest_news_feed bigEnv "u" [] =
      .ok ((List.range' 0 1000).map (fun j => mkRecord j bigItem bigArt)) ∧
    ((List.range' 0 1000).map (fun j => mkRecord j bigItem bigArt)).length
      = 1000 ∧
    (1000 : Nat) ≠ 1001 := by
  refine ⟨rfl, by simp, rfl, ?_, by simp, by omega⟩
  have hff : bigEnv.fetchFeed "u" = .ok (List.replicate 1001 bigItem) := rfl
  have htake : (List.replicate 1001 bigItem).take entryCap =
      List.replicate 1000 bigItem := by
    rw [List.take_replicate]
    norm_num [entryCap]
  have hp := processEntries_replicate bigEnv bigArt (fun _ => rfl) bigItem 1000 0
  simp only [ingest_news_feed, hff, htake, hp, List.nil_append]

/-- C9: within a single successful call to ingest_news_feed the ids of the
records of the batch are exactly doc_ followed by the sequence index, so they
are pairwise distinct; every call reuses the same id sequence starting at
doc_0, so two calls that each add at least one record produce the colliding
id doc_0 across runs. -/
theorem ingest_ids_distinct :
    (∀ (env : IngestEnv) (url : String) (index out : List Record),
      ingest_news_feed env url index = .ok out →
      ∃ records, out = index ++ records ∧
        records.map Record.id = (List.range' 0 records.length).map docId ∧
        (records.map Record.id).Nodup) ∧
    (∀ (env1 : IngestEnv) (url1 : String) (index1 out1 : List Record)
       (env2 : IngestEnv) (url2 : String) (index2 out2 : List Record),
      ingest_news_feed env1 url1 index1 = .ok out1 →
      ingest_news_feed env2 url2 index2 = .ok out2 →
      index1.length < out1.length → index2.length < out2.length →
      docId 0 ∈ (out1.drop index1.length).map Record.id ∧
      docId 0 ∈ (out2.drop index2.length).map Record.id) := by
  have main : ∀ (env : IngestEnv) (url : String) (index out : List Record),
      ingest_news_feed env url index = .ok out →
      ∃ records, out = index ++ records ∧
        records.map Record.id = (List.range' 0 records.length).map docId ∧
        (records.map Record.id).Nodup := by
    intro env url index out h
    obtain ⟨items, records, hf, hp, hout⟩ := ingest_news_feed_ok env url index out h
    have hids := processEntries_ok_ids env _ 0 records hp
    have hlen := processEntries_ok_length env _ 0 records hp
    refine ⟨records, hout, by rw [hids, hlen], ?_⟩
    rw [hids]
    exact (List.nodup_range' _ _).map docId_injective
  refine ⟨main, ?_⟩
  intro env1 url1 index1 out1 env2 url2 index2 out2 h1 h2 hne1 hne2
  obtain ⟨r1, hout1, hids1, _⟩ := main env1 url1 index1 out1 h1
  obtain ⟨r2, hout2, hids2, _⟩ := main env2 url2 index2 out2 h2
  have hlen1 : 0 < r1.length := by
    rw [hout1] at hne1; simp at hne1; omega
  have hlen2 : 0 < r2.length := by
    rw [hout2] at hne2; simp at hne2; omega
  have hmem1 : (0 : Nat) ∈ List.range' 0 r1.length := by
    simp [List.mem_range']
    omega
  have hmem2 : (0 : Nat) ∈ List.range' 0 r2.length := by
    simp [List.mem_range']
    omega
  constructor
  · rw [hout1, List.drop_left, hids1]
    exact List.mem_map_of_mem docId hmem1
  · rw [hout2, List.drop_left, hids2]
    exact List.mem_map_of_mem docId hmem2

theorem ingest_ids_distinct_witness :
    (∃ records, ([] ++ [mkRecord 0 wItem wArt] : List Record) = [] ++ records ∧
      records.map Record.id = (List.range' 0 records.length).map docId ∧
      (records.map Record.id).Nodup) ∧
    docId 0 ∈ (([] ++ [mkRecord 0 wItem wArt] : List Record).drop
      ([] : List Record).length).map Record.id :=
  ⟨ingest_ids_distinct.1 wEnv "u" [] ([] ++ [mkRecord 0 wItem wArt]) rfl,
   (ingest_ids_distinct.2 wEnv "u" [] ([] ++ [mkRecord 0 wItem wArt])
      wEnv "u" [] ([] ++ [mkRecord 0 wItem wArt]) rfl rfl
      (by simp) (by simp)).1⟩

end RagSpec
